import Mathlib

/-!
Verification of the chunk-store metadata index specified for this
repository.  The repository's visible Python consists of the test suite
`src/h5py/tests/hl/test_dataset_storeinfo.py`, the reporting example
`src/examples/store_info.py` and build glue; the chunk directory itself
lives behind the binding layer.  The directory, coordinate codec and
store-info accessor are therefore modelled from the specification, with
every behaviour that the in-repository tests pin down taken from those
tests.  The byte-range reader is translated from `get_bytes` /
`get_cksum`, which are in the repository sources.
-/

/-- Error taxonomy of the store-info subsystem (spec section 7). -/
inductive StoreErr where
  | indexOutOfRange
  | invalidCoordinate
  | shortRead
  | layoutUnavailable
deriving DecidableEq, Repr

/-- One persisted written-chunk entry of the container's chunk-address
map: absolute byte offset, stored byte length, and filter mask. -/
structure ChunkRec where
  fileOffset : Nat
  size : Nat
  filterMask : Nat
deriving DecidableEq, Repr

/-- Allocation record of a written contiguous dataset: absolute byte
offset and stored byte length of the single block. -/
structure ContRec where
  fileOffset : Nat
  size : Nat
deriving DecidableEq, Repr

/-- The StoreInfo record returned by every query (spec section 3).
`none` encodes the spec's *unset*. -/
structure StoreInfo where
  index : Option Nat
  chunk_offset : Option (List Nat)
  file_offset : Option Nat
  size : Nat
  filter_mask : Nat
deriving DecidableEq, Repr

/-- Modelled from the spec: dataset layout as a tagged union
{Shapeless, Contiguous, Chunked} (spec section 9).  A chunked layout
carries the persisted sparse map from grid slot (row-major linear
position over all possible chunk slots) to its written-chunk record;
a contiguous layout carries the optional allocation record. -/
inductive Layout where
  | shapeless
  | contiguous (shape : List Nat) (dtypeSize : Nat) (alloc : Option ContRec)
  | chunked (shape chunkShape : List Nat) (dtypeSize : Nat)
      (written : List (Nat × ChunkRec))
deriving DecidableEq, Repr

/-- Modelled from the spec: per-axis grid dimension
`g_d = ceil(shape[d] / chunk_shape[d])` (spec section 4.1). -/
def gridDims (sh ch : List Nat) : List Nat :=
  List.zipWith (fun s c => (s + c - 1) / c) sh ch

/-- Total number of possible chunk slots of the grid. -/
def gridCount (sh ch : List Nat) : Nat :=
  (gridDims sh ch).prod

/-- Row-major delinearization: grid coordinate of the slot with linear
position `i` (last axis varies fastest). -/
def unrank : List Nat → Nat → List Nat
  | [], _ => []
  | _ :: ds, i => i / ds.prod :: unrank ds (i % ds.prod)

/-- Row-major linearization of a grid coordinate. -/
def rankOf : List Nat → List Nat → Nat
  | _ :: ds, x :: xs => x * ds.prod + rankOf ds xs
  | _, _ => 0

/-- Array-space origin of the chunk slot with linear position `i`:
`coordinate[d] = chunk_coordinate[d] * chunk_shape[d]` (spec 4.1). -/
def slotCoord (sh ch : List Nat) (i : Nat) : List Nat :=
  List.zipWith (fun g c => g * c) (unrank (gridDims sh ch) i) ch

/-- True when a coordinate is an exact multiple of the chunk shape on
every axis. -/
def chunkAligned (coord ch : List Nat) : Bool :=
  (List.zip coord ch).all (fun p => p.1 % p.2 == 0)

/-- The written chunks paired with their grid slot, in ascending
row-major slot order, read off the persisted sparse map. -/
def writtenPairs (sh ch : List Nat) (w : List (Nat × ChunkRec)) :
    List (Nat × ChunkRec) :=
  (List.range (gridCount sh ch)).filterMap
    (fun i => (List.lookup i w).map (fun r => (i, r)))

/-- StoreInfo record of the written chunk ranked `k` among the written
chunks, stored at grid slot `slot`.  Its public `index` is `k`, the
rank in enumeration order, as fixed by the repository's tests
(`test_chunked_store` asserts `idx == s.index` under `enumerate`). -/
def mkChunkRecord (sh ch : List Nat) (k slot : Nat) (r : ChunkRec) :
    StoreInfo :=
  { index := some k
    chunk_offset := some (slotCoord sh ch slot)
    file_offset := some r.fileOffset
    size := r.size
    filter_mask := r.filterMask }

/-- Builds the StoreInfo list of the written chunks, numbering them
consecutively from `k`. -/
def buildRecords (sh ch : List Nat) : Nat → List (Nat × ChunkRec) →
    List StoreInfo
  | _, [] => []
  | k, (slot, r) :: rest =>
      mkChunkRecord sh ch k slot r :: buildRecords sh ch (k + 1) rest

/-- All StoreInfo records of a chunked dataset: one per written chunk,
ascending index, holes skipped. -/
def chunkRecords (sh ch : List Nat) (w : List (Nat × ChunkRec)) :
    List StoreInfo :=
  buildRecords sh ch 0 (writtenPairs sh ch w)

/-- StoreInfo record of a written contiguous dataset: index 0, all-zero
chunk offset, filter mask 0 (spec section 3). -/
def contRecord (sh : List Nat) (r : ContRec) : StoreInfo :=
  { index := some 0
    chunk_offset := some (List.replicate sh.length 0)
    file_offset := some r.fileOffset
    size := r.size
    filter_mask := 0 }

/-- Placeholder returned for a valid-but-unwritten position looked up
by index: the index is known, the coordinate is not derivable. -/
def unwrittenByIndex (idx : Nat) : StoreInfo :=
  { index := some idx
    chunk_offset := none
    file_offset := none
    size := 0
    filter_mask := 0 }

/-- Placeholder returned for a valid-but-unwritten position looked up
by coordinate.  The repository's test `test_chunked_nodata_coord`
asserts that `chunk_offset` and `index` are both unset here. -/
def unwrittenByCoord : StoreInfo :=
  { index := none
    chunk_offset := none
    file_offset := none
    size := 0
    filter_mask := 0 }

/-- Modelled from the spec: `list_all` (spec section 4.2) — empty for a
shapeless dataset, 0 or 1 records for contiguous, one record per written
chunk in ascending index order for chunked. -/
def list_all : Layout → List StoreInfo
  | .shapeless => []
  | .contiguous _ _ none => []
  | .contiguous sh _ (some r) => [contRecord sh r]
  | .chunked sh ch _ w => chunkRecords sh ch w

/-- Modelled from the spec: `chunk_count` (spec section 4.3) — written
chunk count for chunked layout, 1 or 0 for contiguous, 0 for
shapeless. -/
def chunk_count (L : Layout) : Nat :=
  (list_all L).length

/-- Modelled from the spec: `get_by_index` (spec section 4.2), with the
index semantics fixed by the repository's tests: an index below the
written-chunk count resolves to that written chunk in enumeration
order (`test_chunked` looks up index 3 and receives the fourth written
chunk), a larger index still inside the grid yields an unwritten
placeholder (`test_chunked_out_index`), an index that is negative or at
or beyond the grid's slot count fails with `IndexOutOfRange`, as does
any index on a shapeless dataset. -/
def get_by_index (L : Layout) (idx : Int) : Except StoreErr StoreInfo :=
  match L with
  | .shapeless => .error .indexOutOfRange
  | .contiguous sh _ a =>
      if idx = 0 then
        match a with
        | some r => .ok (contRecord sh r)
        | none => .ok (unwrittenByIndex 0)
      else .error .indexOutOfRange
  | .chunked sh ch _ w =>
      if 0 ≤ idx ∧ idx.toNat < gridCount sh ch then
        match (chunkRecords sh ch w)[idx.toNat]? with
        | some s => .ok s
        | none => .ok (unwrittenByIndex idx.toNat)
      else .error .indexOutOfRange

/-- Modelled from the spec: `get_by_coordinate` (spec section 4.2):
rank mismatch or a coordinate not chunk-aligned fails with
`InvalidCoordinate`; otherwise the written-chunk map is consulted at
the coordinate's grid slot, echoing the coordinate for a written chunk
and returning the unwritten placeholder (both coordinate and index
unset, per `test_chunked_nodata_coord`) for a miss.  On a shapeless
dataset every coordinate fails with `IndexOutOfRange`. -/
def get_by_coordinate (L : Layout) (coord : List Nat) :
    Except StoreErr StoreInfo :=
  match L with
  | .shapeless => .error .indexOutOfRange
  | .contiguous sh _ a =>
      if coord = List.replicate sh.length 0 then
        match a with
        | some r => .ok (contRecord sh r)
        | none => .ok unwrittenByCoord
      else .error .invalidCoordinate
  | .chunked sh ch _ w =>
      if coord.length = sh.length ∧ chunkAligned coord ch then
        match List.lookup
            (rankOf (gridDims sh ch)
              (List.zipWith (fun x c => x / c) coord ch)) w with
        | some r =>
            .ok { index := none
                  chunk_offset := some coord
                  file_offset := some r.fileOffset
                  size := r.size
                  filter_mask := r.filterMask }
        | none => .ok unwrittenByCoord
      else .error .invalidCoordinate

/-- Byte-range reader, translated from `get_bytes` in
`src/h5py/tests/hl/test_dataset_storeinfo.py` (and `get_cksum` in
`src/examples/store_info.py`): seek to `off`, read `len` bytes, fail
with `ShortRead` when fewer than `len` bytes are available there. -/
def byteRead (file : List Nat) (off len : Nat) :
    Except StoreErr (List Nat) :=
  if off + len ≤ file.length then .ok ((file.drop off).take len)
  else .error .shortRead

/-- Well-formedness of a chunked dataset's persisted state: the chunk
shape has the dataset's rank with positive extents, every written entry
sits at a grid slot inside the grid with a positive file offset (byte 0
holds the container's own header), and no grid slot is recorded
twice. -/
def wfChunked (sh ch : List Nat) (w : List (Nat × ChunkRec)) : Prop :=
  ch.length = sh.length ∧ (∀ c ∈ ch, 0 < c) ∧
    (∀ p ∈ w, p.1 < gridCount sh ch ∧ 0 < p.2.fileOffset) ∧
    (w.map Prod.fst).Nodup

instance (sh ch : List Nat) (w : List (Nat × ChunkRec)) :
    Decidable (wfChunked sh ch w) :=
  inferInstanceAs (Decidable (_ ∧ _))

/-- Well-formedness of a dataset's persisted state, per layout class.
A written contiguous block has a positive file offset and stores
exactly `element_count * dtype_size` bytes. -/
def wfLayout : Layout → Prop
  | .shapeless => True
  | .contiguous _ _ none => True
  | .contiguous sh ds (some r) =>
      0 < r.fileOffset ∧ r.size = sh.prod * ds
  | .chunked sh ch _ w => wfChunked sh ch w

instance : (L : Layout) → Decidable (wfLayout L)
  | .shapeless => isTrue trivial
  | .contiguous _ _ none => isTrue trivial
  | .contiguous _ _ (some _) => inferInstanceAs (Decidable (_ ∧ _))
  | .chunked _ _ _ _ => inferInstanceAs (Decidable (wfChunked _ _ _))

/-- A container file is non-corrupt for a layout when every persisted
byte range lies inside the file. -/
def wfContainer (file : List Nat) : Layout → Prop
  | .shapeless => True
  | .contiguous _ _ none => True
  | .contiguous _ _ (some r) => r.fileOffset + r.size ≤ file.length
  | .chunked _ _ _ w =>
      ∀ p ∈ w, p.2.fileOffset + p.2.size ≤ file.length

instance (file : List Nat) : (L : Layout) → Decidable (wfContainer file L)
  | .shapeless => isTrue trivial
  | .contiguous _ _ none => isTrue trivial
  | .contiguous _ _ (some _) => Nat.decLe _ _
  | .chunked _ _ _ _ => List.decidableBAll _ _

/-- The written-chunk map of the test fixture `chunked`: dataset shape
(24, 16), chunk shape (6, 4), dtype `i4`, with exactly the chunks at
grid coordinates (0,2), (0,3), (1,2), (1,3) — grid slots 2, 3, 6, 7 —
written, each storing 6*4*4 = 96 bytes unfiltered.  File offsets are
representative positive values. -/
def testWritten : List (Nat × ChunkRec) :=
  [(2, ⟨100, 96, 0⟩), (3, ⟨200, 96, 0⟩), (6, ⟨300, 96, 0⟩),
   (7, ⟨400, 96, 0⟩)]

/-- The test fixture `chunked` of `TestStoreInfo.setUp`. -/
def testChunked : Layout :=
  .chunked [24, 16] [6, 4] 4 testWritten

/-- The test fixture `chunked_nodata`: shape (10, 20), chunk shape
(5, 4), dtype `i4`, no chunk ever written. -/
def nodataChunked : Layout :=
  .chunked [10, 20] [5, 4] 4 []

/-- The test fixture `cont`: contiguous dataset of shape (7, 11, 4) and
8-byte elements, fully written as one block of 7*11*4*8 = 2464 bytes. -/
def testCont : Layout :=
  .contiguous [7, 11, 4] 8 (some ⟨600, 2464⟩)

/-- A container file large enough to hold every byte range of
`testChunked`. -/
def testFile : List Nat :=
  List.replicate 500 0

instance {ε α : Type} [DecidableEq ε] [DecidableEq α] :
    DecidableEq (Except ε α)
  | .error e, .error f =>
      if h : e = f then isTrue (by rw [h])
      else isFalse (by intro hh; cases hh; exact h rfl)
  | .error _, .ok _ => isFalse (by intro hh; cases hh)
  | .ok _, .error _ => isFalse (by intro hh; cases hh)
  | .ok x, .ok y =>
      if h : x = y then isTrue (by rw [h])
      else isFalse (by intro hh; cases hh; exact h rfl)

theorem lookupMem : ∀ {l : List (Nat × ChunkRec)} {a : Nat} {b : ChunkRec},
    List.lookup a l = some b → (a, b) ∈ l := by
  intro l
  induction l with
  | nil => intro a b h; simp [List.lookup] at h
  | cons p t ih =>
      intro a b h
      obtain ⟨k, v⟩ := p
      by_cases hk : a = k
      · subst hk
        simp [List.lookup] at h
        subst h
        exact List.mem_cons_self _ _
      · have hk2 : (a == k) = false := by simp [hk]
        simp only [List.lookup, hk2] at h
        exact List.mem_cons_of_mem _ (ih h)

theorem lookupEqNone : ∀ {l : List (Nat × ChunkRec)} {a : Nat},
    (∀ b : ChunkRec, (a, b) ∉ l) → List.lookup a l = none := by
  intro l
  induction l with
  | nil => intro a _; rfl
  | cons p t ih =>
      intro a h
      obtain ⟨k, v⟩ := p
      by_cases hk : a = k
      · subst hk
        exact absurd (List.mem_cons_self _ _) (h v)
      · have hk2 : (a == k) = false := by simp [hk]
        simp only [List.lookup, hk2]
        exact ih (fun b hb => h b (List.mem_cons_of_mem _ hb))

theorem buildRecords_length (sh ch : List Nat) :
    ∀ (ps : List (Nat × ChunkRec)) (k : Nat),
      (buildRecords sh ch k ps).length = ps.length := by
  intro ps
  induction ps with
  | nil => intro k; rfl
  | cons p t ih =>
      intro k
      obtain ⟨slot, r⟩ := p
      simp [buildRecords, ih]

theorem buildRecords_index (sh ch : List Nat) :
    ∀ (ps : List (Nat × ChunkRec)) (k j : Nat)
      (h : j < (buildRecords sh ch k ps).length),
      ((buildRecords sh ch k ps).get ⟨j, h⟩).index = some (k + j) := by
  intro ps
  induction ps with
  | nil => intro k j h; simp [buildRecords] at h
  | cons p t ih =>
      intro k j h
      obtain ⟨slot, r⟩ := p
      cases j with
      | zero => rfl
      | succ j2 =>
          have h2 : j2 < (buildRecords sh ch (k + 1) t).length := by
            have := h
            simp only [buildRecords, List.length_cons] at this
            omega
          have := ih (k + 1) j2 h2
          simp only [buildRecords, List.get_cons_succ]
          rw [this]
          congr 1
          omega

theorem mem_buildRecords (sh ch : List Nat) :
    ∀ (ps : List (Nat × ChunkRec)) (k : Nat) (s : StoreInfo),
      s ∈ buildRecords sh ch k ps →
      ∃ j p, p ∈ ps ∧ s = mkChunkRecord sh ch j p.1 p.2 := by
  intro ps
  induction ps with
  | nil => intro k s h; simp [buildRecords] at h
  | cons p t ih =>
      intro k s h
      obtain ⟨slot, r⟩ := p
      simp only [buildRecords, List.mem_cons] at h
      cases h with
      | inl h => exact ⟨k, (slot, r), List.mem_cons_self _ _, h⟩
      | inr h =>
          obtain ⟨j, q, hq, hs⟩ := ih (k + 1) s h
          exact ⟨j, q, List.mem_cons_of_mem _ hq, hs⟩

theorem mem_writtenPairs (sh ch : List Nat) (w : List (Nat × ChunkRec))
    (p : Nat × ChunkRec) (h : p ∈ writtenPairs sh ch w) :
    p.1 < gridCount sh ch ∧ List.lookup p.1 w = some p.2 := by
  unfold writtenPairs at h
  rw [List.mem_filterMap] at h
  obtain ⟨i, hi, hmap⟩ := h
  cases hl : List.lookup i w with
  | none => rw [hl] at hmap; simp at hmap
  | some r =>
      rw [hl] at hmap
      simp only [Option.map_some'] at hmap
      obtain ⟨k2, v2⟩ := p
      cases hmap
      exact ⟨List.mem_range.mp hi, hl⟩

theorem chunkRecords_length_le (sh ch : List Nat)
    (w : List (Nat × ChunkRec)) :
    (chunkRecords sh ch w).length ≤ gridCount sh ch := by
  unfold chunkRecords
  rw [buildRecords_length]
  calc (writtenPairs sh ch w).length
      ≤ (List.range (gridCount sh ch)).length :=
        List.length_filterMap_le _ _
    _ = gridCount sh ch := List.length_range _

theorem unrank_length : ∀ (dims : List Nat) (i : Nat),
    (unrank dims i).length = dims.length := by
  intro dims
  induction dims with
  | nil => intro i; rfl
  | cons d ds ih => intro i; simp [unrank, ih]

theorem rankOf_unrank : ∀ (dims : List Nat) (i : Nat), i < dims.prod →
    rankOf dims (unrank dims i) = i := by
  intro dims
  induction dims with
  | nil =>
      intro i h
      simp only [List.prod_nil] at h
      have h0 : i = 0 := by omega
      subst h0
      rfl
  | cons d ds ih =>
      intro i h
      have hP : 0 < ds.prod := by
        rcases Nat.eq_zero_or_pos ds.prod with h0 | h0
        · rw [List.prod_cons, h0, Nat.mul_zero] at h
          omega
        · exact h0
      show i / ds.prod * ds.prod + rankOf ds (unrank ds (i % ds.prod)) = i
      rw [ih (i % ds.prod) (Nat.mod_lt i hP), Nat.mul_comm,
        Nat.div_add_mod]

theorem alignedMul : ∀ (g c : List Nat),
    chunkAligned (List.zipWith (fun x y => x * y) g c) c = true := by
  intro g
  induction g with
  | nil => intro c; rfl
  | cons x xs ih =>
      intro c
      cases c with
      | nil => rfl
      | cons y ys =>
          simp only [List.zipWith_cons_cons, chunkAligned,
            List.zip_cons_cons, List.all_cons, Nat.mul_mod_left,
            beq_self_eq_true, Bool.true_and]
          have := ih ys
          simpa [chunkAligned] using this

theorem mulDivList : ∀ (g c : List Nat), g.length ≤ c.length →
    (∀ x ∈ c, 0 < x) →
    List.zipWith (fun x y => x / y)
      (List.zipWith (fun x y => x * y) g c) c = g := by
  intro g
  induction g with
  | nil => intro c _ _; simp
  | cons x xs ih =>
      intro c hlen hpos
      cases c with
      | nil => simp at hlen
      | cons y ys =>
          have hy : 0 < y := hpos y (List.mem_cons_self _ _)
          simp only [List.zipWith_cons_cons]
          rw [Nat.mul_div_cancel _ hy]
          rw [ih ys (by simpa using hlen)
            (fun z hz => hpos z (List.mem_cons_of_mem _ hz))]

theorem gridDims_length (sh ch : List Nat) :
    (gridDims sh ch).length = min sh.length ch.length := by
  simp [gridDims]

theorem slotCoord_length (sh ch : List Nat) (i : Nat)
    (hch : ch.length = sh.length) :
    (slotCoord sh ch i).length = sh.length := by
  simp [slotCoord, unrank_length, gridDims_length, hch]

/-- Claim C1, counterexample: in the test dataset, the written chunk
whose array-space origin is (0, 8) sits at grid coordinate (0, 2),
row-major grid slot 2 of the 4x4 grid, yet its StoreInfo `index` is 0:
the records carry indices 0, 1, 2, 3, not the grid-slot numbers
2, 3, 6, 7 the claim predicts. -/
theorem chunk_index_grid_slot_counterexample :
    (list_all testChunked).map StoreInfo.index =
      [some 0, some 1, some 2, some 3] ∧
    (list_all testChunked).map StoreInfo.chunk_offset =
      [some [0, 8], some [0, 12], some [6, 8], some [6, 12]] ∧
    slotCoord [24, 16] [6, 4] 2 = [0, 8] ∧
    rankOf (gridDims [24, 16] [6, 4]) [0, 2] = 2 ∧
    (some 0 : Option Nat) ≠ some 2 := by decide

/-- Claim C1, amended: the `index` field of the StoreInfo record
returned by list-all and by-index lookup is the chunk's rank among the
*written* chunks in row-major enumeration order — the k-th record of
`list_all` has `index = k` and `get_by_index k` returns exactly that
record — not its slot number in the grid of all possible chunks. -/
theorem chunk_index_is_written_rank (sh ch : List Nat) (ds : Nat)
    (w : List (Nat × ChunkRec)) (k : Nat)
    (h : k < (list_all (.chunked sh ch ds w)).length) :
    ((list_all (.chunked sh ch ds w)).get ⟨k, h⟩).index = some k ∧
    get_by_index (.chunked sh ch ds w) (k : Int) =
      .ok ((list_all (.chunked sh ch ds w)).get ⟨k, h⟩) := by
  have hlen : k < (chunkRecords sh ch w).length := h
  constructor
  · have hidx := buildRecords_index sh ch (writtenPairs sh ch w) 0 k hlen
    rw [Nat.zero_add] at hidx
    exact hidx
  · have hcond : (0 : Int) ≤ (k : Int) ∧
        (Int.toNat (k : Int)) < gridCount sh ch := by
      refine ⟨Int.natCast_nonneg k, ?_⟩
      rw [Int.toNat_natCast]
      exact lt_of_lt_of_le hlen (chunkRecords_length_le sh ch w)
    simp only [get_by_index]
    rw [if_pos hcond, Int.toNat_natCast,
      List.getElem?_eq_getElem hlen]
    simp [list_all, List.get_eq_getElem]

/-- Witness for the amended claim C1 at the test dataset: the record of
rank 1 has index 1 and is returned by `get_by_index 1`. -/
theorem chunk_index_is_written_rank_witness :
    ((list_all testChunked).get ⟨1, by decide⟩).index = some 1 ∧
    get_by_index testChunked (1 : Int) =
      .ok ((list_all testChunked).get ⟨1, by decide⟩) :=
  chunk_index_is_written_rank [24, 16] [6, 4] 4 testWritten 1 (by decide)

/-- Claim C2, counterexample: looking up the never-written chunk at
coordinate (0, 0) of the `chunked_nodata` test dataset returns a record
whose `chunk_offset` is unset, not the supplied coordinate echoed back
(as `test_chunked_nodata_coord` asserts with `assertIsNone`). -/
theorem coord_echo_counterexample :
    get_by_coordinate nodataChunked [0, 0] =
      .ok { index := none, chunk_offset := none, file_offset := none,
            size := 0, filter_mask := 0 } ∧
    (none : Option (List Nat)) ≠ some [0, 0] := by decide

/-- Claim C2, amended: for every chunked dataset, `get_by_coordinate`
applied to a chunk-aligned coordinate of the dataset's rank whose chunk
was never written returns a record with `file_offset` unset, `size` 0,
`index` unset and `chunk_offset` unset (the supplied coordinate is not
echoed back). -/
theorem coord_lookup_unwritten_fields (sh ch : List Nat) (ds : Nat)
    (w : List (Nat × ChunkRec)) (coord : List Nat)
    (hlen : coord.length = sh.length)
    (halign : chunkAligned coord ch = true)
    (hmiss : ∀ r : ChunkRec,
      (rankOf (gridDims sh ch)
        (List.zipWith (fun x c => x / c) coord ch), r) ∉ w) :
    get_by_coordinate (.chunked sh ch ds w) coord =
      .ok { index := none, chunk_offset := none, file_offset := none,
            size := 0, filter_mask := 0 } := by
  have hnone := lookupEqNone hmiss
  simp only [get_by_coordinate]
  rw [if_pos ⟨hlen, halign⟩, hnone]
  rfl

/-- Witness for the amended claim C2 at the `chunked_nodata` test
dataset and coordinate (0, 0). -/
theorem coord_lookup_unwritten_fields_witness :
    get_by_coordinate nodataChunked [0, 0] =
      .ok { index := none, chunk_offset := none, file_offset := none,
            size := 0, filter_mask := 0 } :=
  coord_lookup_unwritten_fields [10, 20] [5, 4] 4 [] [0, 0]
    (by decide) (by decide) (fun r => List.not_mem_nil _)

/-- Claim C3, counterexample: grid slot 0 (grid coordinate (0, 0),
array origin (0, 0)) of the test dataset is one of the 12 unwritten
grid slots, yet `get_by_index 0` does not return an unwritten
placeholder: it returns the written chunk ranked 0, with its
`file_offset` set. -/
theorem endtoend_grid_slot_counterexample :
    List.lookup 0 testWritten = none ∧
    rankOf (gridDims [24, 16] [6, 4]) [0, 0] = 0 ∧
    get_by_index testChunked 0 =
      .ok { index := some 0, chunk_offset := some [0, 8],
            file_offset := some 100, size := 96, filter_mask := 0 } ∧
    (some 100 : Option Nat) ≠ none := by decide

/-- Claim C3, amended: for the shape (24, 16), chunk shape (6, 4)
dataset (a 4x4 = 16-slot grid) with exactly the chunks at grid
coordinates (0,2), (0,3), (1,2), (1,3) written, `list_all` returns
exactly 4 records in ascending index order 0, 1, 2, 3, each with size
6*4*itemsize = 96, and `get_by_index` returns an unwritten placeholder,
rather than an error, for each of the 12 indices from the written count
4 up to the grid slot count 16 (not for the 12 unwritten grid-slot
numbers: small indices resolve to written chunks by rank). -/
theorem endtoend_chunked_amended :
    gridCount [24, 16] [6, 4] = 16 ∧
    (list_all testChunked).map StoreInfo.index =
      [some 0, some 1, some 2, some 3] ∧
    (list_all testChunked).map StoreInfo.size = [96, 96, 96, 96] ∧
    (List.range 12).map
        (fun j => get_by_index testChunked (Int.ofNat (4 + j))) =
      (List.range 12).map
        (fun j => Except.ok (unwrittenByIndex (4 + j))) := by
  decide

/-- Claim C6: for a dataset declared with no shape, `list_all` is the
empty sequence and both point-lookup operations fail with
`IndexOutOfRange` for any argument. -/
theorem shapeless_all_queries (idx : Int) (coord : List Nat) :
    list_all Layout.shapeless = [] ∧
    get_by_index Layout.shapeless idx = .error .indexOutOfRange ∧
    get_by_coordinate Layout.shapeless coord = .error .indexOutOfRange :=
  ⟨rfl, rfl, rfl⟩

theorem get_by_index_unwritten_range (sh ch : List Nat) (ds : Nat)
    (w : List (Nat × ChunkRec)) (n : Nat)
    (hlow : (chunkRecords sh ch w).length ≤ n)
    (hhigh : n < gridCount sh ch) :
    get_by_index (.chunked sh ch ds w) (n : Int) =
      .ok (unwrittenByIndex n) := by
  have hcond : (0 : Int) ≤ (n : Int) ∧
      (Int.toNat (n : Int)) < gridCount sh ch := by
    refine ⟨Int.natCast_nonneg n, ?_⟩
    rwa [Int.toNat_natCast]
  simp only [get_by_index]
  rw [if_pos hcond, Int.toNat_natCast, List.getElem?_eq_none hlow]

/-- Claim C4: for a chunked dataset, `get_by_index` at the index one
past the largest written index (the written-chunk count), when that
index is still inside the grid, does not fail: it returns the unwritten
placeholder with `index` set to that value, `file_offset` unset,
`size` 0, `filter_mask` 0 and `chunk_offset` unset. -/
theorem one_past_written_placeholder (sh ch : List Nat) (ds : Nat)
    (w : List (Nat × ChunkRec))
    (h : (list_all (.chunked sh ch ds w)).length < gridCount sh ch) :
    get_by_index (.chunked sh ch ds w)
        ((list_all (.chunked sh ch ds w)).length : Int) =
      .ok { index := some (list_all (.chunked sh ch ds w)).length,
            chunk_offset := none, file_offset := none, size := 0,
            filter_mask := 0 } :=
  get_by_index_unwritten_range sh ch ds w _ (le_refl _) h

/-- Witness for claim C4 at the test dataset: its written count is 4,
inside the 16-slot grid. -/
theorem one_past_written_placeholder_witness :
    get_by_index testChunked ((list_all testChunked).length : Int) =
      .ok { index := some (list_all testChunked).length,
            chunk_offset := none, file_offset := none, size := 0,
            filter_mask := 0 } :=
  one_past_written_placeholder [24, 16] [6, 4] 4 testWritten (by decide)

/-- Claim C5: for a chunked dataset, `get_by_index idx` fails with
`IndexOutOfRange` exactly when `idx` is negative or at or beyond the
grid's total possible chunk count, and `IndexOutOfRange` is the only
failure it can produce — for smaller non-negative indices it never
fails. -/
theorem index_out_of_range_iff (sh ch : List Nat) (ds : Nat)
    (w : List (Nat × ChunkRec)) (idx : Int) :
    (get_by_index (.chunked sh ch ds w) idx =
        .error .indexOutOfRange ↔
      idx < 0 ∨ (gridCount sh ch : Int) ≤ idx) ∧
    (∀ e : StoreErr,
      get_by_index (.chunked sh ch ds w) idx = .error e →
      e = .indexOutOfRange) := by
  by_cases h : 0 ≤ idx ∧ idx.toNat < gridCount sh ch
  · have hr : ¬(idx < 0 ∨ (gridCount sh ch : Int) ≤ idx) := by
      push_neg
      obtain ⟨h1, h2⟩ := h
      omega
    simp only [get_by_index]
    rw [if_pos h]
    cases hm : (chunkRecords sh ch w)[idx.toNat]? with
    | some s => exact ⟨by simp [hr], fun e he => by simp at he⟩
    | none => exact ⟨by simp [hr], fun e he => by simp at he⟩
  · have hr : idx < 0 ∨ (gridCount sh ch : Int) ≤ idx := by
      rw [not_and_or] at h
      rcases h with h | h
      · left; omega
      · push_neg at h
        by_cases h2 : idx < 0
        · exact Or.inl h2
        · right; omega
    simp only [get_by_index]
    rw [if_neg h]
    exact ⟨by simp [hr], fun e he => by cases he; rfl⟩

/-- Witness for claim C5 at the test dataset, whose grid has 16 slots:
index 16 is rejected with `IndexOutOfRange`. -/
theorem index_out_of_range_iff_witness :
    get_by_index testChunked 16 = .error .indexOutOfRange :=
  (index_out_of_range_iff [24, 16] [6, 4] 4 testWritten 16).1.mpr
    (Or.inr (by decide))

/-- Claim C7: a contiguous dataset has `chunk_count` at most 1, and
when it is 1 its single `list_all` record stores `element_count *
dtype_size` bytes, has the all-zero chunk offset of the dataset's rank,
index 0 and filter mask 0. -/
theorem contiguous_single_record (sh : List Nat) (ds : Nat)
    (a : Option ContRec) (hwf : wfLayout (.contiguous sh ds a)) :
    chunk_count (.contiguous sh ds a) ≤ 1 ∧
    (chunk_count (.contiguous sh ds a) = 1 →
      ∃ off : Nat,
        list_all (.contiguous sh ds a) =
          [{ index := some 0,
             chunk_offset := some (List.replicate sh.length 0),
             file_offset := some off, size := sh.prod * ds,
             filter_mask := 0 }]) := by
  cases a with
  | none =>
      refine ⟨?_, ?_⟩
      · show (0 : Nat) ≤ 1
        omega
      · intro hcount
        exact absurd hcount (by simp [chunk_count, list_all])
  | some r =>
      obtain ⟨hpos, hsize⟩ := hwf
      refine ⟨le_refl 1, fun _ => ⟨r.fileOffset, ?_⟩⟩
      show [contRecord sh r] = _
      simp [contRecord, hsize]

/-- Witness for claim C7 at the `cont` test fixture: shape (7, 11, 4),
8-byte elements, one written block of 2464 bytes. -/
theorem contiguous_single_record_witness :
    chunk_count testCont ≤ 1 ∧
    (chunk_count testCont = 1 →
      ∃ off : Nat,
        list_all testCont =
          [{ index := some 0,
             chunk_offset := some (List.replicate 3 0),
             file_offset := some off, size := 308 * 8,
             filter_mask := 0 }]) :=
  contiguous_single_record [7, 11, 4] 8 (some ⟨600, 2464⟩) (by decide)

/-- Claim C8: for a well-formed chunked dataset, `get_by_coordinate`
applied to the `chunk_offset` coordinate of any `list_all` record
returns a record with the same `size` and `file_offset` (round-trip
consistency between bulk and point lookup). -/
theorem coord_roundtrip_consistency (sh ch : List Nat) (ds : Nat)
    (w : List (Nat × ChunkRec)) (hwf : wfChunked sh ch w)
    (s : StoreInfo) (hs : s ∈ list_all (.chunked sh ch ds w))
    (c : List Nat) (hc : s.chunk_offset = some c) :
    ∃ t : StoreInfo,
      get_by_coordinate (.chunked sh ch ds w) c = .ok t ∧
      t.size = s.size ∧ t.file_offset = s.file_offset := by
  obtain ⟨hch, hchpos, hentries, hnodup⟩ := hwf
  have hs2 : s ∈ buildRecords sh ch 0 (writtenPairs sh ch w) := hs
  obtain ⟨j, p, hp, hsrec⟩ := mem_buildRecords sh ch _ 0 s hs2
  obtain ⟨hslot, hlook⟩ := mem_writtenPairs sh ch w p hp
  subst hsrec
  have hc2 : c = slotCoord sh ch p.1 := (Option.some.inj hc).symm
  subst hc2
  have hlen : (slotCoord sh ch p.1).length = sh.length :=
    slotCoord_length sh ch p.1 hch
  have halign : chunkAligned (slotCoord sh ch p.1) ch = true :=
    alignedMul _ ch
  have hg : (unrank (gridDims sh ch) p.1).length ≤ ch.length := by
    rw [unrank_length, gridDims_length, hch, Nat.min_self]
  have hdiv : List.zipWith (fun x c2 => x / c2) (slotCoord sh ch p.1) ch
      = unrank (gridDims sh ch) p.1 := by
    unfold slotCoord
    exact mulDivList _ ch hg hchpos
  have hrank : rankOf (gridDims sh ch) (unrank (gridDims sh ch) p.1)
      = p.1 := rankOf_unrank _ p.1 hslot
  refine ⟨{ index := none, chunk_offset := some (slotCoord sh ch p.1),
            file_offset := some p.2.fileOffset, size := p.2.size,
            filter_mask := p.2.filterMask }, ?_, rfl, rfl⟩
  simp only [get_by_coordinate]
  rw [if_pos ⟨hlen, halign⟩, hdiv, hrank, hlook]

/-- Witness for claim C8 at the test dataset: the coordinate (0, 8) of
the first `list_all` record round-trips to the same size and file
offset. -/
theorem coord_roundtrip_consistency_witness :
    ∃ t : StoreInfo,
      get_by_coordinate testChunked [0, 8] = .ok t ∧
      t.size = 96 ∧ t.file_offset = some 100 :=
  coord_roundtrip_consistency [24, 16] [6, 4] 4 testWritten (by decide)
    { index := some 0, chunk_offset := some [0, 8],
      file_offset := some 100, size := 96, filter_mask := 0 }
    (by decide) [0, 8] rfl

/-- Claim C9: the byte-range read fails with `ShortRead` exactly when
fewer than `len` bytes are available at `off`; consequently, for a
non-corrupt container, reading `size` bytes at `file_offset` of every
`list_all` record succeeds with no `ShortRead`. -/
theorem short_read_iff_and_noncorrupt (file : List Nat) (L : Layout)
    (hwf : wfContainer file L) :
    (∀ off len : Nat,
      byteRead file off len = .error .shortRead ↔
        file.length < off + len) ∧
    (∀ s ∈ list_all L, ∀ o : Nat, s.file_offset = some o →
      byteRead file o s.size = .ok ((file.drop o).take s.size)) := by
  constructor
  · intro off len
    unfold byteRead
    by_cases h : off + len ≤ file.length
    · rw [if_pos h]
      exact ⟨fun hh => by simp at hh, fun hh => by omega⟩
    · rw [if_neg h]
      exact ⟨fun _ => by omega, fun _ => rfl⟩
  · intro s hs o ho
    have hbound : o + s.size ≤ file.length := by
      cases L with
      | shapeless => simp [list_all] at hs
      | contiguous sh ds a =>
          cases a with
          | none => simp [list_all] at hs
          | some r =>
              have hsr : s = contRecord sh r := by
                simpa [list_all] using hs
              subst hsr
              have ho2 : r.fileOffset = o := Option.some.inj ho
              have hb : r.fileOffset + r.size ≤ file.length := hwf
              show o + r.size ≤ file.length
              omega
      | chunked sh ch ds w =>
          obtain ⟨j, p, hp, hsrec⟩ := mem_buildRecords sh ch _ 0 s hs
          obtain ⟨_, hlook⟩ := mem_writtenPairs sh ch w p hp
          have hmem : (p.1, p.2) ∈ w := lookupMem hlook
          have hb : p.2.fileOffset + p.2.size ≤ file.length :=
            hwf (p.1, p.2) hmem
          subst hsrec
          have ho2 : p.2.fileOffset = o := Option.some.inj ho
          show o + p.2.size ≤ file.length
          omega
    unfold byteRead
    rw [if_pos hbound]

set_option maxRecDepth 4000 in
/-- Witness for claim C9: reading the first test record's 96 bytes at
offset 100 from the 500-byte test container succeeds. -/
theorem short_read_iff_and_noncorrupt_witness :
    byteRead testFile 100 96 = .ok ((testFile.drop 100).take 96) :=
  (short_read_iff_and_noncorrupt testFile testChunked (by decide)).2
    { index := some 0, chunk_offset := some [0, 8],
      file_offset := some 100, size := 96, filter_mask := 0 }
    (by decide) 100 rfl

theorem chunkRecords_offset_pos (sh ch : List Nat)
    (w : List (Nat × ChunkRec))
    (hentries : ∀ p ∈ w, p.1 < gridCount sh ch ∧ 0 < p.2.fileOffset) :
    ∀ s ∈ chunkRecords sh ch w, ∀ o : Nat,
      s.file_offset = some o → 0 < o := by
  intro s hs o ho
  obtain ⟨j, p, hp, hsrec⟩ := mem_buildRecords sh ch _ 0 s hs
  obtain ⟨_, hlook⟩ := mem_writtenPairs sh ch w p hp
  have hmem : (p.1, p.2) ∈ w := lookupMem hlook
  have hpos : 0 < p.2.fileOffset := (hentries _ hmem).2
  subst hsrec
  have ho2 : p.2.fileOffset = o := Option.some.inj ho
  omega

theorem listAll_offset_pos (L : Layout) (hwf : wfLayout L) :
    ∀ s ∈ list_all L, ∀ o : Nat, s.file_offset = some o → 0 < o := by
  cases L with
  | shapeless => intro s hs; simp [list_all] at hs
  | contiguous sh ds a =>
      cases a with
      | none => intro s hs; simp [list_all] at hs
      | some r =>
          intro s hs o ho
          have hsr : s = contRecord sh r := by simpa [list_all] using hs
          subst hsr
          have ho2 : r.fileOffset = o := Option.some.inj ho
          have hpos : 0 < r.fileOffset := hwf.1
          omega
  | chunked sh ch ds w =>
      exact chunkRecords_offset_pos sh ch w hwf.2.2.1

/-- Claim C10: for a well-formed container, every record of a written
chunk (or written contiguous dataset) returned by list-all or either
point lookup has its set `file_offset` strictly greater than zero —
byte 0 holds the container's own header — so an unset `file_offset` can
never be confused with a legitimate stored offset of 0. -/
theorem written_file_offset_positive (L : Layout) (hwf : wfLayout L) :
    (∀ s ∈ list_all L, ∀ o : Nat, s.file_offset = some o → 0 < o) ∧
    (∀ idx : Int, ∀ s : StoreInfo, get_by_index L idx = .ok s →
      ∀ o : Nat, s.file_offset = some o → 0 < o) ∧
    (∀ c : List Nat, ∀ s : StoreInfo,
      get_by_coordinate L c = .ok s →
      ∀ o : Nat, s.file_offset = some o → 0 < o) := by
  refine ⟨listAll_offset_pos L hwf, ?_, ?_⟩
  · intro idx s h o ho
    cases L with
    | shapeless => simp [get_by_index] at h
    | contiguous sh ds a =>
        cases a with
        | none =>
            simp only [get_by_index] at h
            split at h
            · have hsr : unwrittenByIndex 0 = s := Except.ok.inj h
              rw [← hsr] at ho
              simp [unwrittenByIndex] at ho
            · simp at h
        | some r =>
            simp only [get_by_index] at h
            split at h
            · have hsr : contRecord sh r = s := Except.ok.inj h
              rw [← hsr] at ho
              have ho2 : r.fileOffset = o := Option.some.inj ho
              have hpos : 0 < r.fileOffset := hwf.1
              omega
            · simp at h
    | chunked sh ch ds w =>
        simp only [get_by_index] at h
        split at h
        · split at h
          next t heq =>
            have hst : t = s := Except.ok.inj h
            subst hst
            have hmem : t ∈ chunkRecords sh ch w := by
              have := List.get?_eq_getElem? (chunkRecords sh ch w)
                idx.toNat
              exact List.get?_mem (by rw [this, heq])
            exact chunkRecords_offset_pos sh ch w hwf.2.2.1 t hmem o ho
          next heq =>
            have hsr : unwrittenByIndex idx.toNat = s := Except.ok.inj h
            rw [← hsr] at ho
            simp [unwrittenByIndex] at ho
        · simp at h
  · intro c s h o ho
    cases L with
    | shapeless => simp [get_by_coordinate] at h
    | contiguous sh ds a =>
        cases a with
        | none =>
            simp only [get_by_coordinate] at h
            split at h
            · have hsr : unwrittenByCoord = s := Except.ok.inj h
              rw [← hsr] at ho
              simp [unwrittenByCoord] at ho
            · simp at h
        | some r =>
            simp only [get_by_coordinate] at h
            split at h
            · have hsr : contRecord sh r = s := Except.ok.inj h
              rw [← hsr] at ho
              have ho2 : r.fileOffset = o := Option.some.inj ho
              have hpos : 0 < r.fileOffset := hwf.1
              omega
            · simp at h
    | chunked sh ch ds w =>
        simp only [get_by_coordinate] at h
        split at h
        · split at h
          next r heq =>
            have hmem := lookupMem heq
            have hpos : 0 < r.fileOffset := (hwf.2.2.1 _ hmem).2
            have hsr := Except.ok.inj h
            rw [← hsr] at ho
            have ho2 : r.fileOffset = o := Option.some.inj ho
            omega
          next heq =>
            have hsr : unwrittenByCoord = s := Except.ok.inj h
            rw [← hsr] at ho
            simp [unwrittenByCoord] at ho
        · simp at h

/-- Witness for claim C10 at the first record of the test dataset,
whose stored file offset 100 is strictly positive. -/
theorem written_file_offset_positive_witness :
    StoreInfo.file_offset
        { index := some 0, chunk_offset := some [0, 8],
          file_offset := some 100, size := 96, filter_mask := 0 } =
      some 100 ∧ 0 < 100 :=
  ⟨rfl, (written_file_offset_positive testChunked (by decide)).1
    { index := some 0, chunk_offset := some [0, 8],
      file_offset := some 100, size := 96, filter_mask := 0 }
    (by decide) 100 rfl⟩
